import Mathlib

/-!
Verification development for the NEO-explorer core (models.py, database.py,
filters.py, write.py): a shallow embedding of the entity model, the
`NEODatabase` construction/join, the filter predicates and the `limit`
wrapper, together with theorems settling the specified properties.

Python floats appear here only through the operations the code performs on
them (exact comparisons `==`, `>=`, `<=` and the NaN sentinel), so they are
modelled as `FloatVal`: either the NaN sentinel or an exact rational value.
Every comparison involving NaN is false, as in IEEE 754 / Python.
-/

/-- A Python float as used by this program: the NaN sentinel or an exact value. -/
inductive FloatVal where
  | nan : FloatVal
  | val : ℚ → FloatVal
deriving DecidableEq

/-- Python `==` on floats: NaN compares unequal to everything (itself included). -/
def FloatVal.feq : FloatVal → FloatVal → Bool
  | .val a, .val b => decide (a = b)
  | _, _ => false

/-- Python `>=` on floats: false whenever either operand is NaN. -/
def FloatVal.fge : FloatVal → FloatVal → Bool
  | .val a, .val b => decide (b ≤ a)
  | _, _ => false

/-- Python `<=` on floats: false whenever either operand is NaN. -/
def FloatVal.fle : FloatVal → FloatVal → Bool
  | .val a, .val b => decide (a ≤ b)
  | _, _ => false

/-- A `datetime.date`: calendar date, compared lexicographically. -/
structure PyDate where
  year : Int
  month : Int
  day : Int
deriving DecidableEq

/-- Python `<=` on dates (lexicographic on year, month, day). -/
def PyDate.ble (a b : PyDate) : Bool :=
  if a.year = b.year then
    (if a.month = b.month then decide (a.day ≤ b.day) else decide (a.month < b.month))
  else decide (a.year < b.year)

/-- A `datetime.datetime` (timezone-naive): a date plus hour and minute. -/
structure PyDateTime where
  date : PyDate
  hour : Int
  minute : Int
deriving DecidableEq

/-- models.py `NearEarthObject`: designation, optional name, diameter (NaN when
unknown), hazardous flag. The `approaches` back-links live in the database's
link state (the arena modelling of the NEO/approach cross-references). -/
structure NearEarthObject where
  designation : String
  name : Option String
  diameter : FloatVal
  hazardous : Bool
deriving DecidableEq

/-- models.py `CloseApproach`: the `_designation` foreign key, optional time,
distance (au) and velocity (km/s). The `neo` back-reference lives in the
database's link state. -/
structure CloseApproach where
  designation : String
  time : Option PyDateTime
  distance : ℚ
  velocity : ℚ
deriving DecidableEq

/-- The shape of the raw `diameter` field handed to `NearEarthObject.__init__`:
missing/empty, present but unparsable by `float`, or a parsed value. -/
inductive RawDiameter where
  | missing : RawDiameter
  | unparsable : RawDiameter
  | value : ℚ → RawDiameter

/-- models.py `NearEarthObject.__init__` diameter handling:
`float(info.get('diameter')) if info.get('diameter') else float('nan')`,
with a `ValueError` handler also producing `float('nan')`. -/
def parseDiameter : RawDiameter → FloatVal
  | .missing => .nan
  | .unparsable => .nan
  | .value q => .val q

/-- A value stored in a serialized record: a Python string or a float. -/
inductive SerialVal where
  | str : String → SerialVal
  | num : FloatVal → SerialVal
deriving DecidableEq

/-- The dictionary returned by models.py `NearEarthObject.serialize`. -/
structure NeoSerial where
  designation : String
  name : String
  diameter_km : SerialVal
  potentially_hazardous : Bool
deriving DecidableEq

/-- Python truthiness of the optional `name` field: `None` and the empty
string are falsy, any other string is truthy. -/
def pyTruthyName : Option String → Bool
  | none => false
  | some s => !(s == "")

/-- Python `self.diameter is not float('nan')` (models.py line 37): an object
identity comparison against a freshly allocated float object, which is true
for every operand, whatever its value. -/
def isNotFreshNan (_d : FloatVal) : Bool := true

/-- models.py `NearEarthObject.serialize`. The `diameter_km` branch mirrors
`self.diameter if self.diameter is not float('nan') else 'nan'`; because the
identity test is always true, the `'nan'` string branch is unreachable. -/
def NearEarthObject.serialize (neo : NearEarthObject) : NeoSerial :=
  ⟨neo.designation,
   if pyTruthyName neo.name then neo.name.getD "" else "",
   if isNotFreshNan neo.diameter then .num neo.diameter else .str "nan",
   neo.hazardous⟩

/-- A close approach paired with its resolved `neo` reference (null for an
orphan approach), which is what the filter predicates operate on. -/
abbrev LinkedApproach := CloseApproach × Option NearEarthObject

/-- The exceptions that can surface from filter evaluation: Python
`AttributeError` (attribute access on `None`), the program's own
`FilterNotSupported`, and `TypeError` (ordered comparison across types). -/
inductive PyError where
  | attributeError : PyError
  | filterNotSupported : PyError
  | typeError : PyError
deriving DecidableEq

/-- The comparators drawn from the `operator` module by filters.py. -/
inductive Comparator where
  | eq : Comparator
  | ge : Comparator
  | le : Comparator
deriving DecidableEq

/-- The filter families of filters.py: the `GeneralFilter` base class with no
concrete family bound, and one subclass per attribute. -/
inductive FilterFamily where
  | general : FilterFamily
  | date : FilterFamily
  | distance : FilterFamily
  | velocity : FilterFamily
  | diameter : FilterFamily
  | hazard : FilterFamily
deriving DecidableEq

/-- A value extracted from an approach or captured as a reference value. -/
inductive FilterValue where
  | float : FloatVal → FilterValue
  | date : PyDate → FilterValue
  | bool : Bool → FilterValue
deriving DecidableEq

/-- Applying an `operator` comparator to an extracted attribute and the
reference value. Python `==` across different types yields `False`; ordered
comparison across types raises `TypeError`; bools compare as the ints 0/1. -/
def applyComparator : Comparator → FilterValue → FilterValue → Except PyError Bool
  | .eq, .float a, .float b => .ok (a.feq b)
  | .ge, .float a, .float b => .ok (a.fge b)
  | .le, .float a, .float b => .ok (a.fle b)
  | .eq, .date a, .date b => .ok (decide (a = b))
  | .ge, .date a, .date b => .ok (PyDate.ble b a)
  | .le, .date a, .date b => .ok (PyDate.ble a b)
  | .eq, .bool a, .bool b => .ok (a == b)
  | .ge, .bool a, .bool b => .ok (decide (b ≤ a))
  | .le, .bool a, .bool b => .ok (decide (a ≤ b))
  | .eq, _, _ => .ok false
  | _, _, _ => .error .typeError

/-- filters.py `extract_attribute`, per family. The base class raises
`FilterNotSupported`; `DateFilter` reads `approach.time.date()` (an
`AttributeError` when `time` is `None`); `DiameterFilter`/`HazardFilter` read
`approach.neo.diameter`/`approach.neo.hazardous` (an `AttributeError` when
`neo` is `None`). -/
def extract_attribute : FilterFamily → LinkedApproach → Except PyError FilterValue
  | .general, _ => .error .filterNotSupported
  | .date, a =>
    match a.1.time with
    | some t => .ok (.date t.date)
    | none => .error .attributeError
  | .distance, a => .ok (.float (.val a.1.distance))
  | .velocity, a => .ok (.float (.val a.1.velocity))
  | .diameter, a =>
    match a.2 with
    | some n => .ok (.float n.diameter)
    | none => .error .attributeError
  | .hazard, a =>
    match a.2 with
    | some n => .ok (.bool n.hazardous)
    | none => .error .attributeError

/-- A filter instance: its family (the subclass), the comparator and the
reference value captured at construction (filters.py `GeneralFilter.__init__`). -/
structure GeneralFilter where
  family : FilterFamily
  comparator : Comparator
  ref_value : FilterValue

/-- filters.py `GeneralFilter.__call__`: extract the attribute, then apply
the comparator against the reference value; errors raised during extraction
propagate. -/
def GeneralFilter.call (f : GeneralFilter) (a : LinkedApproach) : Except PyError Bool :=
  match extract_attribute f.family a with
  | .error e => .error e
  | .ok attr => applyComparator f.comparator attr f.ref_value

/-- One entry of filters.py `create_filters`' criteria table: a singleton
filter when the criterion value is present, nothing when it is `None`. -/
def optFilter (fam : FilterFamily) (cmp : Comparator) : Option FilterValue → List GeneralFilter
  | some v => [⟨fam, cmp, v⟩]
  | none => []

/-- filters.py `create_filters`: one filter per non-`None` criterion, in the
fixed insertion order of the criteria table. -/
def create_filters (date start_date end_date : Option PyDate)
    (distance_min distance_max velocity_min velocity_max : Option ℚ)
    (diameter_min diameter_max : Option ℚ) (hazardous : Option Bool) :
    List GeneralFilter :=
  optFilter .date .eq (date.map .date) ++
  optFilter .date .ge (start_date.map .date) ++
  optFilter .date .le (end_date.map .date) ++
  optFilter .distance .ge (distance_min.map (fun q => .float (.val q))) ++
  optFilter .distance .le (distance_max.map (fun q => .float (.val q))) ++
  optFilter .velocity .ge (velocity_min.map (fun q => .float (.val q))) ++
  optFilter .velocity .le (velocity_max.map (fun q => .float (.val q))) ++
  optFilter .diameter .ge (diameter_min.map (fun q => .float (.val q))) ++
  optFilter .diameter .le (diameter_max.map (fun q => .float (.val q))) ++
  optFilter .hazard .eq (hazardous.map .bool)

/-- database.py: the designation index
`{neo.designation: idx for idx, neo in enumerate(neos)}`, as a lookup
function. Later entries overwrite earlier ones (dict last-write-wins), which
is why the recursion gives the tail priority; `i` is the position of the
list's head in the full NEO list. -/
def desigIndex (i : Nat) : List NearEarthObject → String → Option Nat
  | [], _ => none
  | n :: rest, d =>
    match desigIndex (i + 1) rest d with
    | some j => some j
    | none => if d = n.designation then some i else none

/-- database.py: the name index
`{neo.name: idx for idx, neo in enumerate(neos) if neo.name}`, as a lookup
function; only truthy (non-null, non-empty) names are keys, last-write-wins. -/
def nameIndex (i : Nat) : List NearEarthObject → String → Option Nat
  | [], _ => none
  | n :: rest, d =>
    match nameIndex (i + 1) rest d with
    | some j => some j
    | none => if pyTruthyName n.name && (n.name == some d) then some i else none

/-- The cross-links produced by database.py's constructor loop, in arena
form: for each approach position, the linked NEO position (`approach.neo`),
and for each NEO position, the positions of its appended approaches
(`neo.approaches`), in append order. -/
structure LinkState where
  approachNeo : Nat → Option Nat
  neoApproaches : Nat → List Nat

/-- The empty link state: every `approach.neo` is `None` and every
`neo.approaches` list is empty, as after the entity constructors run. -/
def initLinks : LinkState := ⟨fun _ => none, fun _ => []⟩

/-- One iteration of database.py's constructor loop on the enumerated
approach `p`: look the approach's designation up in the index; if found, set
`approach.neo` and append the approach to that NEO's `approaches` list
(an NEO object is always truthy, so `if neo:` means "found"); otherwise
leave everything unchanged. -/
def linkStep (idx : String → Option Nat) (st : LinkState) (p : Nat × CloseApproach) :
    LinkState :=
  match idx p.2.designation with
  | some j =>
    ⟨fun i => if i = p.1 then some j else st.approachNeo i,
     fun k => if k = j then st.neoApproaches k ++ [p.1] else st.neoApproaches k⟩
  | none => st

/-- database.py: the whole constructor loop
`for approach in self._approaches: ...`, over the enumerated approaches. -/
def buildLinks (idx : String → Option Nat) (approaches : List CloseApproach) : LinkState :=
  (List.enumFrom 0 approaches).foldl (linkStep idx) initLinks

/-- database.py `NEODatabase`: the stored collections, the two indexes built
at construction time, and the link state produced by the constructor loop. -/
structure NEODatabase where
  neos : List NearEarthObject
  approaches : List CloseApproach
  idxByDesignation : String → Option Nat
  idxByName : String → Option Nat
  links : LinkState

/-- database.py `NEODatabase.__init__`: store both collections, build the two
indexes, then run the linking loop (which consults the designation index, as
`get_neo_by_designation` does). Construction is total: no step can raise. -/
def NEODatabase.build (neos : List NearEarthObject) (approaches : List CloseApproach) :
    NEODatabase :=
  ⟨neos, approaches, desigIndex 0 neos, nameIndex 0 neos,
   buildLinks (desigIndex 0 neos) approaches⟩

/-- database.py `get_neo_by_designation`:
`idx = self._neo_idx_by_designation.get(designation, -1);
return self._neos[idx] if idx >= 0 else None`. -/
def NEODatabase.get_neo_by_designation (db : NEODatabase) (d : String) :
    Option NearEarthObject :=
  match db.idxByDesignation d with
  | some idx => db.neos.get? idx
  | none => none

/-- database.py `get_neo_by_name`, same shape as the designation lookup. -/
def NEODatabase.get_neo_by_name (db : NEODatabase) (d : String) :
    Option NearEarthObject :=
  match db.idxByName d with
  | some idx => db.neos.get? idx
  | none => none

/-- The database's approaches each paired with their resolved `neo`
reference, in stored order: the view of `self._approaches` that `query`'s
filters see after the constructor has set the `neo` attributes. -/
def NEODatabase.linkedApproaches (db : NEODatabase) : List LinkedApproach :=
  (List.enumFrom 0 db.approaches).map
    (fun p => (p.2, (db.links.approachNeo p.1).bind (fun j => db.neos.get? j)))

/-- database.py `query`'s generator loop: walk the approaches in stored order
and yield those on which `all(f(approach) for f in filters)` holds
(`List.all` short-circuits on the first false, like Python's `all`). -/
def queryGen : List LinkedApproach → List (LinkedApproach → Bool) → List LinkedApproach
  | [], _ => []
  | a :: rest, fs => if fs.all (fun f => f a) then a :: queryGen rest fs else queryGen rest fs

/-- database.py `NEODatabase.query`, as the list of elements the generator
yields when drained. -/
def NEODatabase.query (db : NEODatabase) (fs : List (LinkedApproach → Bool)) :
    List LinkedApproach :=
  queryGen db.linkedApproaches fs

/-- filters.py `limit`, as the full sequence a consumer collecting every item
sees: `None` and `0` return the iterator unchanged; otherwise the generator
`(item for idx, item in enumerate(iterator) if idx < max_elements)`. -/
def limitDrain (m : Int) : List (Nat × α) → List α
  | [] => []
  | (i, x) :: rest => if (i : Int) < m then x :: limitDrain m rest else limitDrain m rest

/-- filters.py `limit`: `if max_elements is None or max_elements == 0:
return iterator`, else the index-filtering generator over the enumerated
source. -/
def limit (seq : List α) (max_elements : Option Int) : List α :=
  match max_elements with
  | none => seq
  | some m => if m = 0 then seq else limitDrain m (List.enumFrom 0 seq)

/-- One `next()` call on `limit`'s generator, with its consumption of the
source made explicit: the generator pulls enumerated source elements until
one passes `idx < max_elements` (yielding it) or the source is exhausted
(`StopIteration`). Returns the yielded item if any, the remaining source,
and how many source elements this single call pulled. -/
def limitNextCount (m : Int) : List (Nat × α) → Option α × List (Nat × α) × Nat
  | [] => (none, [], 0)
  | (i, x) :: rest =>
    if (i : Int) < m then (some x, rest, 1)
    else
      match limitNextCount m rest with
      | (r, rem, c) => (r, rem, c + 1)

/-- A consumer performing at most `k` `next()` calls on `limit`'s generator,
stopping early at `StopIteration`: the items received and the total number of
source elements the generator pulled. -/
def limitRun (m : Int) : Nat → List (Nat × α) → List α × Nat
  | 0, _ => ([], 0)
  | k + 1, src =>
    match limitNextCount m src with
    | (none, _, c) => ([], c)
    | (some x, rem, c) =>
      match limitRun m k rem with
      | (xs, c2) => (x :: xs, c + c2)

/-! ### Helper lemmas about float comparisons and the query generator -/

theorem FloatVal.feq_nan_left (b : FloatVal) : FloatVal.feq .nan b = false := by
  cases b <;> rfl

theorem FloatVal.fge_nan_left (b : FloatVal) : FloatVal.fge .nan b = false := by
  cases b <;> rfl

theorem FloatVal.fle_nan_left (b : FloatVal) : FloatVal.fle .nan b = false := by
  cases b <;> rfl

theorem queryGen_eq_filter (l : List LinkedApproach) (fs : List (LinkedApproach → Bool)) :
    queryGen l fs = l.filter (fun a => fs.all (fun f => f a)) := by
  induction l with
  | nil => rfl
  | cons a rest ih =>
    by_cases h : fs.all (fun f => f a)
    · simp [queryGen, h, ih]
    · simp [queryGen, h, ih]

/-- C2: `query(filters)` yields exactly the approaches on which every filter
is true, in the dataset's stored order: the empty filter set yields all
approaches unchanged, the result is the order-preserving filtering of the
stored sequence, every yielded approach satisfies all filters, every
approach satisfying all filters is yielded, and the result is a sublist
(subset in order) of the stored sequence. -/
theorem query_yields_exactly_matching (db : NEODatabase)
    (fs : List (LinkedApproach → Bool)) :
    db.query [] = db.linkedApproaches ∧
    db.query fs = db.linkedApproaches.filter (fun a => fs.all (fun f => f a)) ∧
    (∀ a ∈ db.query fs, ∀ f ∈ fs, f a = true) ∧
    (∀ a ∈ db.linkedApproaches, (∀ f ∈ fs, f a = true) → a ∈ db.query fs) ∧
    (db.query fs).Sublist db.linkedApproaches := by
  refine ⟨?_, ?_, ?_, ?_, ?_⟩
  · simp [NEODatabase.query, queryGen_eq_filter]
  · exact queryGen_eq_filter _ _
  · intro a ha f hf
    rw [NEODatabase.query, queryGen_eq_filter] at ha
    have h2 := List.of_mem_filter ha
    simp only [List.all_eq_true] at h2
    exact h2 f hf
  · intro a ha hall
    rw [NEODatabase.query, queryGen_eq_filter]
    exact List.mem_filter.mpr ⟨ha, List.all_eq_true.mpr hall⟩
  · rw [NEODatabase.query, queryGen_eq_filter]
    exact List.filter_sublist _

/-- C8: applying a Diameter or Hazard filter to an orphan close approach
(null `neo`) raises `AttributeError` from the attribute access on the null
reference — it does not return a non-match. -/
theorem orphan_diameter_hazard_filter_raises (cmp : Comparator) (r : FilterValue)
    (a : CloseApproach) :
    GeneralFilter.call ⟨.diameter, cmp, r⟩ (a, none) = .error .attributeError ∧
    GeneralFilter.call ⟨.hazard, cmp, r⟩ (a, none) = .error .attributeError :=
  ⟨rfl, rfl⟩

/-- C9: calling a bare `GeneralFilter` instance (no concrete family bound) on
any approach raises `FilterNotSupported` at that first use, an error kind
distinct from the data-error `AttributeError` and from `TypeError`. -/
theorem general_filter_raises_not_supported (cmp : Comparator) (r : FilterValue)
    (a : LinkedApproach) :
    GeneralFilter.call ⟨.general, cmp, r⟩ a = .error .filterNotSupported ∧
    PyError.filterNotSupported ≠ PyError.attributeError ∧
    PyError.filterNotSupported ≠ PyError.typeError :=
  ⟨rfl, by decide, by decide⟩

/-- C10: a diameter filter — any comparator `create_filters` can bind (`>=`
for `diameter_min`, `<=` for `diameter_max`), and in fact `==` too — against
any float reference value returns false (no match, no exception) on an
approach whose linked NEO has the NaN (unknown) diameter. -/
theorem nan_diameter_filter_false (cmp : Comparator) (r : FloatVal) (a : CloseApproach)
    (ds : String) (nm : Option String) (hz : Bool) :
    GeneralFilter.call ⟨.diameter, cmp, .float r⟩ (a, some ⟨ds, nm, .nan, hz⟩) =
      .ok false := by
  cases cmp <;>
    simp [GeneralFilter.call, extract_attribute, applyComparator,
      FloatVal.feq_nan_left, FloatVal.fge_nan_left, FloatVal.fle_nan_left]

/-- C4: serializing an NEO whose diameter is unknown (the NaN sentinel, as
produced by the constructor for a missing diameter) stores the numeric NaN
float in `diameter_km`, not the string sentinel "nan" — the identity test
`self.diameter is not float('nan')` is always true, so the sentinel branch
is dead code. The value does remain distinguishable from a true zero
diameter. -/
theorem serialize_unknown_diameter_is_numeric :
    (NearEarthObject.serialize ⟨"2020 XY", none, parseDiameter .missing, false⟩).diameter_km
      = SerialVal.num FloatVal.nan ∧
    SerialVal.num FloatVal.nan ≠ SerialVal.str "nan" ∧
    (NearEarthObject.serialize ⟨"2020 XY", none, parseDiameter .missing, false⟩).diameter_km
      ≠ (NearEarthObject.serialize ⟨"2010 AB", none, .val 0, false⟩).diameter_km :=
  ⟨rfl, by decide, by decide⟩

/-! ### Lemmas about `limit` -/

theorem limitDrain_enumFrom_of_le (rest : List α) (n : Nat) (m : Int) (h : m ≤ n) :
    limitDrain m (List.enumFrom n rest) = [] := by
  induction rest generalizing n with
  | nil => rfl
  | cons a r ih =>
    simp only [List.enumFrom, limitDrain]
    rw [if_neg (by omega)]
    exact ih (n + 1) (by omega)

theorem limitDrain_enumFrom_eq_take (seq : List α) (n : Nat) (m : Int) :
    limitDrain m (List.enumFrom n seq) = seq.take (m - n).toNat := by
  induction seq generalizing n with
  | nil => simp [limitDrain, List.enumFrom]
  | cons a rest ih =>
    simp only [List.enumFrom, limitDrain]
    by_cases h : (n : Int) < m
    · rw [if_pos h, ih (n + 1)]
      have h2 : (m - n).toNat = (m - (n + 1 : Nat)).toNat + 1 := by push_cast; omega
      rw [h2, List.take_succ_cons]
    · rw [if_neg h, limitDrain_enumFrom_of_le rest (n + 1) m (by omega)]
      have h2 : (m - n).toNat = 0 := by omega
      rw [h2, List.take_zero]

theorem limitNextCount_exhaust (rest : List α) (n : Nat) (m : Int) (h : m ≤ n) :
    limitNextCount m (List.enumFrom n rest) = (none, [], rest.length) := by
  induction rest generalizing n with
  | nil => rfl
  | cons a r ih =>
    simp only [List.enumFrom, limitNextCount]
    rw [if_neg (by omega), ih (n + 1) (by omega)]
    simp

theorem limitRun_all_within (seq : List α) (k : Nat) (n : Nat) (m : Int)
    (h : (n : Int) + k ≤ m) :
    limitRun m k (List.enumFrom n seq) = (seq.take k, min k seq.length) := by
  induction k generalizing n seq with
  | zero => simp [limitRun]
  | succ k ih =>
    cases seq with
    | nil => simp [limitRun, limitNextCount, List.enumFrom]
    | cons a rest =>
      have hn : (n : Int) < m := by omega
      simp only [List.enumFrom, limitRun, limitNextCount, if_pos hn]
      rw [ih rest (n + 1) (by push_cast; push_cast at h; omega)]
      simp only [List.take_succ_cons, List.length_cons]
      rw [Nat.succ_min_succ, Nat.add_comm]

/-- C3 (counterexample): `limit`'s generator does not stop consuming the
source after the 3rd item. On the five-element source `[10, 20, 30, 40, 50]`
with `max_elements = 3`, a consumer performing a 4th `next()` call makes the
generator pull the whole source — 5 elements, not at most 3 — because the
generator filters on the index instead of terminating at the bound. -/
theorem limit_consumes_past_bound_cex :
    ¬ ((limitRun (α := Nat) 3 4 (List.enumFrom 0 [10, 20, 30, 40, 50])).2 ≤ 3) := by
  decide

/-- C3 (amended): `limit(seq, None)` and `limit(seq, 0)` return the sequence
unchanged; `limit(seq, 3)` yields the first `min 3 (length seq)` items in
original relative order, and a consumer pulling only those 3 items causes
only 3 source elements to be consumed; but the generator does not stop
consuming the source after the 3rd item: when the source is longer than 3,
one further `next()` call walks the entire remaining source. -/
theorem limit_spec (seq : List α) :
    limit seq none = seq ∧
    limit seq (some 0) = seq ∧
    limit seq (some 3) = seq.take 3 ∧
    limitRun 3 3 (List.enumFrom 0 seq) = (seq.take 3, min 3 seq.length) ∧
    (3 < seq.length → (limitRun 3 4 (List.enumFrom 0 seq)).2 = seq.length) := by
  refine ⟨rfl, rfl, ?_, ?_, ?_⟩
  · show limitDrain 3 (List.enumFrom 0 seq) = seq.take 3
    rw [limitDrain_enumFrom_eq_take]
    congr 1
  · have h := limitRun_all_within seq 3 0 3 (by norm_num)
    simpa using h
  · intro hlen
    match seq, hlen with
    | a :: b :: c :: rest, _ =>
      have h4 : limitNextCount (α := α) 3 (List.enumFrom 3 rest) = (none, [], rest.length) :=
        limitNextCount_exhaust rest 3 3 (by norm_num)
      norm_num [List.enumFrom, limitRun, limitNextCount, h4]
      omega

/-- Witness for `limit_spec` at the concrete source `[10, 20, 30, 40, 50]`:
the 4th pull drives total source consumption to all 5 elements. -/
theorem limit_spec_witness :
    (limitRun (α := Nat) 3 4 (List.enumFrom 0 [10, 20, 30, 40, 50])).2 = 5 :=
  (limit_spec [10, 20, 30, 40, 50]).2.2.2.2 (by decide)

/-! ### Lemmas about the designation index and the constructor's join -/

/-- The designation stored at position `k` of the NEO list, if any. -/
def desigAt (neos : List NearEarthObject) (k : Nat) : Option String :=
  (neos.get? k).map (fun n => n.designation)

theorem desigAt_eq_some_mem (neos : List NearEarthObject) (k : Nat) (d : String)
    (h : desigAt neos k = some d) : ∃ n ∈ neos, n.designation = d := by
  rw [desigAt] at h
  cases hg : neos.get? k with
  | none => rw [hg] at h; cases h
  | some x =>
    rw [hg] at h
    exact ⟨x, List.get?_mem hg, Option.some.inj h⟩

theorem desigIndex_eq_none_iff (neos : List NearEarthObject) (d : String) :
    ∀ i : Nat, desigIndex i neos d = none ↔ ∀ n ∈ neos, n.designation ≠ d := by
  induction neos with
  | nil => intro i; simp [desigIndex]
  | cons n rest ih =>
    intro i
    simp only [desigIndex]
    cases h : desigIndex (i + 1) rest d with
    | some j =>
      simp only [List.mem_cons]
      constructor
      · intro hc; cases hc
      · intro hall
        exfalso
        have h2 := (ih (i + 1)).mpr (fun m hm => hall m (Or.inr hm))
        rw [h2] at h
        cases h
    | none =>
      have hrest := (ih (i + 1)).mp h
      by_cases hd : d = n.designation
      · simp only [if_pos hd, List.mem_cons]
        constructor
        · intro hc; cases hc
        · intro hall
          exact absurd hd.symm (hall n (Or.inl rfl))
      · simp only [if_neg hd, List.mem_cons]
        constructor
        · intro _ m hm
          rcases hm with rfl | hm
          · exact fun he => hd he.symm
          · exact hrest m hm
        · intro _; trivial

theorem desigAt_cons_zero (n : NearEarthObject) (rest : List NearEarthObject) :
    desigAt (n :: rest) 0 = some n.designation := rfl

theorem desigAt_cons_succ (n : NearEarthObject) (rest : List NearEarthObject) (k : Nat) :
    desigAt (n :: rest) (k + 1) = desigAt rest k := rfl

/-- The designation index maps `d` to position `j` exactly when `j` holds the
last NEO whose designation is `d` (dict comprehension last-write-wins). -/
theorem desigIndex_eq_some_iff (d : String) :
    ∀ (neos : List NearEarthObject) (i j : Nat),
    desigIndex i neos d = some j ↔
      ∃ k, j = i + k ∧ desigAt neos k = some d ∧ ∀ m, k < m → desigAt neos m ≠ some d := by
  intro neos
  induction neos with
  | nil =>
    intro i j
    simp [desigIndex, desigAt]
  | cons n rest ih =>
    intro i j
    simp only [desigIndex]
    cases h : desigIndex (i + 1) rest d with
    | some j' =>
      obtain ⟨k', hj', hk', hlast'⟩ := (ih (i + 1) j').mp h
      constructor
      · intro hjj
        have hjj' : j = j' := (Option.some.inj hjj).symm
        refine ⟨k' + 1, by omega, ?_, ?_⟩
        · rw [desigAt_cons_succ]; exact hk'
        · intro m hm
          cases m with
          | zero => omega
          | succ m'' =>
            rw [desigAt_cons_succ]
            exact hlast' m'' (by omega)
      · rintro ⟨k, hj, hk, hlast⟩
        cases k with
        | zero =>
          exact absurd (by rw [desigAt_cons_succ]; exact hk')
            (hlast (k' + 1) (Nat.succ_pos k'))
        | succ k'' =>
          rw [desigAt_cons_succ] at hk
          have hlast'' : ∀ m, k'' < m → desigAt rest m ≠ some d := by
            intro m hm
            have h2 := hlast (m + 1) (by omega)
            rwa [desigAt_cons_succ] at h2
          have h3 := (ih (i + 1) (i + 1 + k'')).mpr ⟨k'', rfl, hk, hlast''⟩
          rw [h3] at h
          have he : j' = i + 1 + k'' := (Option.some.inj h).symm
          have : j' = j := by omega
          rw [this]
    | none =>
      have hrest := (desigIndex_eq_none_iff rest d (i + 1)).mp h
      by_cases hd : d = n.designation
      · simp only [if_pos hd]
        constructor
        · intro hij
          have hji : j = i := (Option.some.inj hij).symm
          refine ⟨0, by omega, ?_, ?_⟩
          · rw [desigAt_cons_zero, hd]
          · intro m hm
            cases m with
            | zero => omega
            | succ m'' =>
              rw [desigAt_cons_succ]
              intro hc
              obtain ⟨x, hx, hxd⟩ := desigAt_eq_some_mem rest m'' d hc
              exact hrest x hx hxd
        · rintro ⟨k, hj, hk, hlast⟩
          cases k with
          | zero =>
            simp only [Nat.add_zero] at hj
            rw [hj]
          | succ k'' =>
            exfalso
            rw [desigAt_cons_succ] at hk
            obtain ⟨x, hx, hxd⟩ := desigAt_eq_some_mem rest k'' d hk
            exact hrest x hx hxd
      · simp only [if_neg hd]
        constructor
        · intro hc; cases hc
        · rintro ⟨k, hj, hk, hlast⟩
          exfalso
          cases k with
          | zero =>
            rw [desigAt_cons_zero] at hk
            exact hd (Option.some.inj hk).symm
          | succ k'' =>
            rw [desigAt_cons_succ] at hk
            obtain ⟨x, hx, hxd⟩ := desigAt_eq_some_mem rest k'' d hk
            exact hrest x hx hxd

/-- If the designation index maps `d` to `j`, position `j` holds designation `d`. -/
theorem desigIndex_some_desigAt (neos : List NearEarthObject) (d : String) (j : Nat)
    (h : desigIndex 0 neos d = some j) : desigAt neos j = some d := by
  obtain ⟨k, hk, hd2, _⟩ := (desigIndex_eq_some_iff d neos 0 j).mp h
  rw [Nat.zero_add] at hk
  rw [hk]
  exact hd2

/-- Unrolling the constructor loop: the `approaches` list accumulated at NEO
position `k` is the (ordered) positions of the approaches whose designation
the index resolves to `k`, appended after whatever the state held. -/
theorem linkFold_neoApproaches (idx : String → Option Nat) :
    ∀ (apps : List CloseApproach) (n : Nat) (st : LinkState) (k : Nat),
    ((List.enumFrom n apps).foldl (linkStep idx) st).neoApproaches k =
      st.neoApproaches k ++
        ((List.enumFrom n apps).filter
          (fun p => decide (idx p.2.designation = some k))).map (fun p => p.1) := by
  intro apps
  induction apps with
  | nil => intro n st k; simp [List.enumFrom]
  | cons a rest ih =>
    intro n st k
    simp only [List.enumFrom, List.foldl_cons]
    rw [ih (n + 1) (linkStep idx st (n, a)) k]
    cases h : idx a.designation with
    | none =>
      have hstep : linkStep idx st (n, a) = st := by simp [linkStep, h]
      rw [hstep]
      simp [List.filter_cons, h]
    | some j =>
      by_cases hk : j = k
      · subst hk
        have hstep : (linkStep idx st (n, a)).neoApproaches j =
            st.neoApproaches j ++ [n] := by simp [linkStep, h]
        rw [hstep]
        simp [List.filter_cons, h, List.append_assoc]
      · have hstep : (linkStep idx st (n, a)).neoApproaches k = st.neoApproaches k := by
          simp [linkStep, h, Ne.symm hk]
        rw [hstep]
        have hfilter : decide (idx a.designation = some k) = false := by
          simp [h, hk]
        simp [List.filter_cons, hfilter]

theorem buildLinks_neoApproaches (idx : String → Option Nat)
    (apps : List CloseApproach) (k : Nat) :
    (buildLinks idx apps).neoApproaches k =
      ((List.enumFrom 0 apps).filter
        (fun p => decide (idx p.2.designation = some k))).map (fun p => p.1) := by
  rw [buildLinks, linkFold_neoApproaches]
  simp [initLinks]

/-- Positions in the enumeration: a member of `enumFrom n l` carries an index
at least `n` and the list element found at the offset it names. -/
theorem enumFrom_mem_get? :
    ∀ (l : List α) (n : Nat) (p : Nat × α),
    p ∈ List.enumFrom n l → n ≤ p.1 ∧ l.get? (p.1 - n) = some p.2 := by
  intro l
  induction l with
  | nil => intro n p h; simp [List.enumFrom] at h
  | cons a rest ih =>
    intro n p h
    simp only [List.enumFrom, List.mem_cons] at h
    rcases h with rfl | h
    · simp
    · obtain ⟨h1, h2⟩ := ih (n + 1) p h
      refine ⟨by omega, ?_⟩
      have h3 : p.1 - n = (p.1 - (n + 1)) + 1 := by omega
      rw [h3, List.get?_cons_succ]
      exact h2

/-- If the state leaves approach position `i` unlinked and no loop iteration
of index `i` can resolve its designation, the loop leaves position `i`
unlinked. -/
theorem linkFold_approachNeo_none (idx : String → Option Nat) :
    ∀ (apps : List CloseApproach) (n : Nat) (st : LinkState) (i : Nat),
    st.approachNeo i = none →
    (∀ p ∈ List.enumFrom n apps, p.1 = i → idx p.2.designation = none) →
    ((List.enumFrom n apps).foldl (linkStep idx) st).approachNeo i = none := by
  intro apps
  induction apps with
  | nil => intro n st i hst _; simpa [List.enumFrom] using hst
  | cons a rest ih =>
    intro n st i hst hall
    simp only [List.enumFrom, List.foldl_cons]
    apply ih (n + 1) (linkStep idx st (n, a)) i
    · cases h : idx a.designation with
      | none => simpa [linkStep, h] using hst
      | some j =>
        have hni : i ≠ n := by
          intro he
          have h2 := hall (n, a) (by simp [List.enumFrom]) he.symm
          rw [h2] at h
          cases h
        simp [linkStep, h, hni, hst]
    · intro p hp hpi
      exact hall p (by simp only [List.enumFrom, List.mem_cons]; exact Or.inr hp) hpi

/-- C6: when several supplied NEOs share a designation (here positions `i`
and `j`, with `j` the last position carrying it), `get_neo_by_designation`
returns exactly the NEO at position `j` — the last one inserted — as a plain
value (an `Option`, so the lookup cannot raise). -/
theorem get_neo_by_designation_last_wins (neos : List NearEarthObject)
    (apps : List CloseApproach) (d : String) (i j : Nat)
    (hij : i < j) (hj : j < neos.length)
    (hi : desigAt neos i = some d) (hjd : desigAt neos j = some d)
    (hlast : ∀ m, j < m → desigAt neos m ≠ some d) :
    (NEODatabase.build neos apps).get_neo_by_designation d =
      some (neos.get ⟨j, hj⟩) := by
  have hidx : desigIndex 0 neos d = some j :=
    (desigIndex_eq_some_iff d neos 0 j).mpr ⟨j, (Nat.zero_add j).symm, hjd, hlast⟩
  show (match desigIndex 0 neos d with
        | some idx => neos.get? idx
        | none => none) = some (neos.get ⟨j, hj⟩)
  rw [hidx]
  exact List.get?_eq_get hj

/-- Witness for `get_neo_by_designation_last_wins`: two NEOs share the
designation "X"; lookup returns the second (last-inserted) one. -/
def cexNeos : List NearEarthObject :=
  [⟨"X", none, .nan, false⟩, ⟨"X", some "Second", .val 1, true⟩]

/-- One close approach whose designation "X" matches both `cexNeos` entries. -/
def cexApps : List CloseApproach := [⟨"X", none, 0, 0⟩]

theorem get_neo_by_designation_last_wins_witness :
    (NEODatabase.build cexNeos cexApps).get_neo_by_designation "X" =
      some (cexNeos.get ⟨1, by decide⟩) :=
  get_neo_by_designation_last_wins cexNeos cexApps "X" 0 1 (by decide) (by decide)
    (by decide) (by decide)
    (by
      intro m hm
      rcases m with _ | _ | m
      · omega
      · omega
      · simp [desigAt, cexNeos])

/-- C7: an approach (at position `i`) whose designation matches no supplied
NEO is left an orphan: its `neo` reference stays null after construction —
and construction itself is a total function, so the unresolved join raises
nothing. -/
theorem orphan_approach_neo_none (neos : List NearEarthObject)
    (apps : List CloseApproach) (i : Nat) (a : CloseApproach)
    (ha : apps.get? i = some a)
    (hno : ∀ n ∈ neos, n.designation ≠ a.designation) :
    (NEODatabase.build neos apps).links.approachNeo i = none := by
  have hidx : desigIndex 0 neos a.designation = none :=
    (desigIndex_eq_none_iff neos a.designation 0).mpr hno
  show (buildLinks (desigIndex 0 neos) apps).approachNeo i = none
  rw [buildLinks]
  apply linkFold_approachNeo_none
  · rfl
  · intro p hp hpi
    obtain ⟨_, h2⟩ := enumFrom_mem_get? apps 0 p hp
    rw [Nat.sub_zero, hpi, ha] at h2
    have hpa : p.2 = a := (Option.some.inj h2).symm
    rw [hpa]
    exact hidx

theorem orphan_approach_neo_none_witness :
    (NEODatabase.build [⟨"Y", none, FloatVal.nan, false⟩] cexApps).links.approachNeo 0 =
      none :=
  orphan_approach_neo_none [⟨"Y", none, FloatVal.nan, false⟩] cexApps 0
    ⟨"X", none, 0, 0⟩ (by decide) (by decide)

/-- Comparison definition following the spec's words for the C1 invariant:
the positions of all supplied close approaches whose designation equals `d`,
in supplied order. -/
def specMatchingIndices (apps : List CloseApproach) (d : String) : List Nat :=
  ((List.enumFrom 0 apps).filter (fun p => decide (p.2.designation = d))).map
    (fun p => p.1)

/-- C1 (counterexample): two supplied NEOs share the designation "X" and one
supplied approach has designation "X". The first NEO's designation is "X",
yet its `approaches` list comes out empty rather than holding the matching
approach — the designation dict is last-write-wins, so the approach is
appended to the second NEO only. This refutes the claim that every NEO's
`approaches` list holds exactly the matching approaches. -/
theorem neo_approaches_exactly_matching_cex :
    (cexNeos.get? 0).map (fun n => n.designation) = some "X" ∧
    (NEODatabase.build cexNeos cexApps).links.neoApproaches 0 ≠
      specMatchingIndices cexApps "X" := by
  decide

/-- C1 (amended): after construction, the NEO at position `k` (designation
`d`) holds exactly the supplied approaches whose designation equals `d`, in
supplied order, provided `k` is the last position carrying `d`; an NEO
shadowed by a later NEO with the same designation gets an empty `approaches`
list instead. -/
theorem neo_approaches_characterization (neos : List NearEarthObject)
    (apps : List CloseApproach) (k : Nat) (d : String)
    (hk : desigAt neos k = some d) :
    ((∀ m, k < m → desigAt neos m ≠ some d) →
      (NEODatabase.build neos apps).links.neoApproaches k =
        specMatchingIndices apps d) ∧
    ((∃ m, k < m ∧ desigAt neos m = some d) →
      (NEODatabase.build neos apps).links.neoApproaches k = []) := by
  constructor
  · intro hlast
    have hidx : desigIndex 0 neos d = some k :=
      (desigIndex_eq_some_iff d neos 0 k).mpr ⟨k, (Nat.zero_add k).symm, hk, hlast⟩
    show (buildLinks (desigIndex 0 neos) apps).neoApproaches k = _
    rw [buildLinks_neoApproaches, specMatchingIndices]
    congr 1
    apply List.filter_congr
    intro p _
    simp only [decide_eq_decide]
    constructor
    · intro hp
      have h1 := desigIndex_some_desigAt neos p.2.designation k hp
      rw [hk] at h1
      exact (Option.some.inj h1).symm
    · intro hp
      rw [hp]
      exact hidx
  · rintro ⟨m, hm, hmd⟩
    show (buildLinks (desigIndex 0 neos) apps).neoApproaches k = []
    rw [buildLinks_neoApproaches]
    have hnone : ∀ p : Nat × CloseApproach,
        desigIndex 0 neos p.2.designation ≠ some k := by
      intro p hp
      have h1 := desigIndex_some_desigAt neos p.2.designation k hp
      rw [hk] at h1
      have hd : p.2.designation = d := (Option.some.inj h1).symm
      rw [hd] at hp
      obtain ⟨k', hk', _, hlast⟩ := (desigIndex_eq_some_iff d neos 0 k).mp hp
      rw [Nat.zero_add] at hk'
      subst hk'
      exact hlast m hm hmd
    have hfil : ((List.enumFrom 0 apps).filter
        (fun p => decide (desigIndex 0 neos p.2.designation = some k))) = [] := by
      rw [List.filter_eq_nil]
      intro p _
      simpa using hnone p
    rw [hfil]
    rfl

/-- Witness for `neo_approaches_characterization` on the concrete duplicate
input: the second (last) NEO with designation "X" receives exactly the one
matching approach. -/
theorem neo_approaches_characterization_witness :
    (NEODatabase.build cexNeos cexApps).links.neoApproaches 1 =
      specMatchingIndices cexApps "X" :=
  (neo_approaches_characterization cexNeos cexApps 1 "X" (by decide)).1
    (by
      intro m hm
      rcases m with _ | _ | m
      · omega
      · omega
      · simp [desigAt, cexNeos])

/-! ### The close-approach serialization view (spec-modelled) -/

/-- Zero-padding to two digits for the fixed-format timestamp. -/
def pad2 (n : Int) : String := if n < 10 then "0" ++ toString n else toString n

/-- Modelled from the spec: helpers.py (`datetime_to_str`) is not among the
source files; per §6 the approach time is rendered as one fixed-format
string (year-month-day hour:minute). -/
def datetime_to_str (t : PyDateTime) : String :=
  toString t.date.year ++ "-" ++ pad2 t.date.month ++ "-" ++ pad2 t.date.day ++ " " ++
    pad2 t.hour ++ ":" ++ pad2 t.minute

/-- The record written per close approach by write.py (its CSV fieldnames). -/
structure ApproachSerial where
  datetime_utc : String
  distance_au : ℚ
  velocity_km_s : ℚ
  designation : String
  name : String
  diameter_km : SerialVal
  potentially_hazardous : Bool
deriving DecidableEq

/-- Modelled from the spec: `CloseApproach.serialize` is missing from the
source files (models.py breaks off inside `CloseApproach.__str__`, before
this method; write.py calls `approach.serialize()` with the fieldnames
`datetime_utc, distance_au, velocity_km_s, designation, name, diameter_km,
potentially_hazardous`). Per §6: `datetime_utc` is the approach time as a
fixed-format string, the NEO-derived fields come from the linked NEO,
`name` defaults to the empty string when absent and `diameter_km` is the
"nan" sentinel marker when the diameter is unknown. -/
def CloseApproach.serialize (a : CloseApproach) (neo : Option NearEarthObject) :
    ApproachSerial :=
  ⟨(match a.time with
    | some t => datetime_to_str t
    | none => ""),
   a.distance,
   a.velocity,
   a.designation,
   (match neo with
    | some n => if pyTruthyName n.name then n.name.getD "" else ""
    | none => ""),
   (match neo with
    | some n =>
      (match n.diameter with
       | .nan => .str "nan"
       | .val q => .num (.val q))
    | none => .str "nan"),
   (match neo with
    | some n => n.hazardous
    | none => false)⟩

/-- C5: the serialization view of a close approach with its linked NEO
carries exactly the fields `datetime_utc` (the approach time as the
fixed-format string), `distance_au`, `velocity_km_s`, `designation`, `name`
(empty string when the NEO has no name), `diameter_km` (the "nan" sentinel
when the diameter is unknown) and `potentially_hazardous`. -/
theorem close_approach_serialize_view (a : CloseApproach) (n : NearEarthObject)
    (t : PyDateTime) (ht : a.time = some t) :
    (CloseApproach.serialize a (some n)).datetime_utc = datetime_to_str t ∧
    (CloseApproach.serialize a (some n)).distance_au = a.distance ∧
    (CloseApproach.serialize a (some n)).velocity_km_s = a.velocity ∧
    (CloseApproach.serialize a (some n)).designation = a.designation ∧
    (n.name = none → (CloseApproach.serialize a (some n)).name = "") ∧
    (n.diameter = FloatVal.nan →
      (CloseApproach.serialize a (some n)).diameter_km = SerialVal.str "nan") ∧
    (CloseApproach.serialize a (some n)).potentially_hazardous = n.hazardous := by
  refine ⟨?_, rfl, rfl, rfl, ?_, ?_, rfl⟩
  · simp [CloseApproach.serialize, ht]
  · intro hn
    simp [CloseApproach.serialize, hn, pyTruthyName]
  · intro hd
    simp [CloseApproach.serialize, hd]

/-- Witness for `close_approach_serialize_view` on the §8 example approach,
linked to an unnamed NEO of unknown diameter. -/
theorem close_approach_serialize_view_witness :
    (CloseApproach.serialize ⟨"2000433", some ⟨⟨2020, 1, 1⟩, 0, 0⟩, 3 / 20, 5⟩
        (some ⟨"2000433", none, FloatVal.nan, false⟩)).name = "" ∧
    (CloseApproach.serialize ⟨"2000433", some ⟨⟨2020, 1, 1⟩, 0, 0⟩, 3 / 20, 5⟩
        (some ⟨"2000433", none, FloatVal.nan, false⟩)).diameter_km =
      SerialVal.str "nan" := by
  have h := close_approach_serialize_view
    ⟨"2000433", some ⟨⟨2020, 1, 1⟩, 0, 0⟩, 3 / 20, 5⟩
    ⟨"2000433", none, FloatVal.nan, false⟩ ⟨⟨2020, 1, 1⟩, 0, 0⟩ rfl
  exact ⟨h.2.2.2.2.1 rfl, h.2.2.2.2.2.1 rfl⟩

/-- Witness for `query_yields_exactly_matching` at a concrete database: the
empty filter set yields the stored approaches unchanged. -/
theorem query_yields_exactly_matching_witness :
    (NEODatabase.build cexNeos cexApps).query [] =
      (NEODatabase.build cexNeos cexApps).linkedApproaches :=
  (query_yields_exactly_matching (NEODatabase.build cexNeos cexApps) []).1

/-- Witness for `orphan_diameter_hazard_filter_raises` at a concrete orphan. -/
theorem orphan_diameter_hazard_filter_raises_witness :
    GeneralFilter.call ⟨.diameter, .ge, .float (.val 1)⟩ (⟨"X", none, 0, 0⟩, none) =
      .error .attributeError :=
  (orphan_diameter_hazard_filter_raises .ge (.float (.val 1)) ⟨"X", none, 0, 0⟩).1

/-- Witness for `general_filter_raises_not_supported` at a concrete approach. -/
theorem general_filter_raises_not_supported_witness :
    GeneralFilter.call ⟨.general, .eq, .bool true⟩ (⟨"X", none, 0, 0⟩, none) =
      .error .filterNotSupported :=
  (general_filter_raises_not_supported .eq (.bool true) (⟨"X", none, 0, 0⟩, none)).1

/-- Witness for `nan_diameter_filter_false`: a `diameter_min`-style filter on
an approach linked to an NEO of unknown diameter returns false. -/
theorem nan_diameter_filter_false_witness :
    GeneralFilter.call ⟨.diameter, .ge, .float (.val 1)⟩
      (⟨"X", none, 0, 0⟩, some ⟨"X", none, .nan, false⟩) = .ok false :=
  nan_diameter_filter_false .ge (.val 1) ⟨"X", none, 0, 0⟩ "X" none false
